import Mathlib

/-!
# Verification of the FDP QoS analysis pipeline

A shallow embedding of `fio_scenarios/analyze_fdp_results.py` (the latency
analysis and comparative reporting engine) in Lean 4, together with proofs
about it.

Modelling conventions:
* Python floats are modelled by exact rationals `ℚ`; Python ints by `ℤ`.
* A metadata dictionary is an association list `Dict` of string keys to
  tagged values (`MetaVal`), mirroring the int/float/string coercion of
  `_load_metadata`.
* Python exceptions (`KeyError`, `TypeError`, `ZeroDivisionError`,
  `UnboundLocalError`) are modelled by the `Except PyErr` monad: a function
  returns `.error e` exactly when the Python code raises, and `.ok v` with
  the value describing the completed computation otherwise.
* `numpy` sorting is modelled by `List.insertionSort (· ≤ ·)` (a stable
  ascending sort); `np.percentile` uses linear interpolation
  `x[⌊h⌋] + (h - ⌊h⌋)·(x[⌊h⌋+1] - x[⌊h⌋])` with `h = (n-1)·q/100`,
  which is reproduced exactly.
-/

/-- Python exceptions that the analysis code can raise. -/
inductive PyErr where
  | keyError
  | typeError
  | zeroDiv
  | unboundLocal
deriving DecidableEq, Repr

/-- A metadata value as produced by `_load_metadata`: a Python int, float or
string (the tagged sum the spec's design notes call for). -/
inductive MetaVal where
  | int (n : ℤ)
  | float (q : ℚ)
  | str (s : String)
deriving DecidableEq, Repr

/-- The numeric content of a metadata value, if any.  Strings have none:
Python arithmetic or comparison between a `str` and a number raises
`TypeError`. -/
def MetaVal.num : MetaVal → Option ℚ
  | .int n => some (n : ℚ)
  | .float q => some q
  | .str _ => none

/-- A Python dict from string keys to metadata values, as an association
list with unique keys (inserts overwrite). -/
abbrev Dict := List (String × MetaVal)

/-- `d[k]` lookup returning `none` on a missing key. -/
def Dict.get (d : Dict) (k : String) : Option MetaVal :=
  (List.find? (fun p => p.1 == k) d).map (fun p => p.2)

/-- `d[k] = v`: overwrite-or-add insertion. -/
def Dict.insert (d : Dict) (k : String) (v : MetaVal) : Dict :=
  (k, v) :: List.filter (fun p => ¬ p.1 == k) d

/-- `metadata.get(k, default)`. -/
def Dict.getD (d : Dict) (k : String) (v : MetaVal) : MetaVal :=
  (d.get k).getD v

/-- Python `str.strip()`: drop leading and trailing whitespace. -/
def pyStrip (cs : List Char) : List Char :=
  ((cs.dropWhile Char.isWhitespace).reverse.dropWhile Char.isWhitespace).reverse

/-- Digits-only string to a natural number (helper for `int()`/`float()`). -/
def digitsVal (cs : List Char) : Option ℕ :=
  if cs ≠ [] ∧ cs.all Char.isDigit then
    some (cs.foldl (fun acc c => 10 * acc + (c.toNat - '0'.toNat)) 0)
  else none

/-- Python `int(s)` on decimal literals: optional surrounding whitespace,
optional sign, a nonempty digit string.  (Digit-group underscores are not
modelled.)  `none` models `ValueError`. -/
def pyInt (cs : List Char) : Option ℤ :=
  match pyStrip cs with
  | '+' :: rest => (digitsVal rest).map (fun n => (n : ℤ))
  | '-' :: rest => (digitsVal rest).map (fun n => -(n : ℤ))
  | rest => (digitsVal rest).map (fun n => (n : ℤ))

/-- Mantissa `i.f` (either part may be empty, not both) as a rational. -/
def mantissaVal (cs : List Char) : Option ℚ :=
  let ip := cs.takeWhile (fun c => c ≠ '.')
  let rest := cs.dropWhile (fun c => c ≠ '.')
  match rest with
  | [] =>
    (digitsVal ip).map (fun n => (n : ℚ))
  | _ :: fp =>
    if fp.contains '.' then none
    else if ip = [] ∧ fp = [] then none
    else if ip.all Char.isDigit ∧ fp.all Char.isDigit then
      some (((ip ++ fp).foldl (fun acc c => 10 * acc + (c.toNat - '0'.toNat)) 0 : ℕ) /
        (10 : ℚ) ^ fp.length)
    else none

/-- Signed mantissa (helper for `float()`). -/
def signedMantissaVal (cs : List Char) : Option ℚ :=
  match cs with
  | '+' :: rest => mantissaVal rest
  | '-' :: rest => (mantissaVal rest).map (fun q => -q)
  | rest => mantissaVal rest

/-- Python `float(s)` on decimal literals: optional surrounding whitespace,
optional sign, digits with at most one decimal point, optional exponent.
(`inf`/`nan` spellings and digit-group underscores are not modelled.)
`none` models `ValueError`. -/
def pyFloat (cs : List Char) : Option ℚ :=
  let t := pyStrip cs
  let mant := t.takeWhile (fun c => c ≠ 'e' ∧ c ≠ 'E')
  let rest := t.dropWhile (fun c => c ≠ 'e' ∧ c ≠ 'E')
  match rest with
  | [] => signedMantissaVal mant
  | _ :: ex =>
    match signedMantissaVal mant with
    | none => none
    | some m =>
      match ex with
      | '+' :: ds => (digitsVal ds).map (fun n => m * (10 : ℚ) ^ (n : ℤ))
      | '-' :: ds => (digitsVal ds).map (fun n => m * (10 : ℚ) ^ (-(n : ℤ)))
      | ds => (digitsVal ds).map (fun n => m * (10 : ℚ) ^ (n : ℤ))

/-- The three-way value coercion of `_load_metadata`:
`float(value) if '.' in value else int(value)`, falling back to the raw
string on `ValueError`. -/
def coerceValue (v : List Char) : MetaVal :=
  if v.contains '.' then
    match pyFloat v with
    | some q => .float q
    | none => .str (String.mk v)
  else
    match pyInt v with
    | some n => .int n
    | none => .str (String.mk v)

/-- One line of `metadata.txt`: used only if it contains `=`; stripped, then
split on the FIRST `=` into key and value; the value is coerced. -/
def loadMetadataLine (md : Dict) (line : String) : Dict :=
  let cs := line.data
  if cs.contains '=' then
    let s := pyStrip cs
    let key := s.takeWhile (fun c => c ≠ '=')
    let value := (s.dropWhile (fun c => c ≠ '=')).tail
    md.insert (String.mk key) (coerceValue value)
  else md

/-- `LatencyAnalyzer._load_metadata`, over the file's list of lines. -/
def load_metadata (lines : List String) : Dict :=
  lines.foldl loadMetadataLine []

/-- The percentile-statistics record returned by `calculate_percentiles`
(keys `count, min, max, mean, median, p50, p95, p99, p99.9, p99.99`). -/
structure Percentiles where
  count : ℕ
  min : ℚ
  max : ℚ
  mean : ℚ
  median : ℚ
  p50 : ℚ
  p95 : ℚ
  p99 : ℚ
  p99_9 : ℚ
  p99_99 : ℚ
deriving DecidableEq, Repr

/-- The ascending sort used by the numpy statistics routines. -/
def pysort (l : List ℚ) : List ℚ :=
  List.insertionSort (· ≤ ·) l

/-- Linear interpolation of a sorted sample list at fractional index `h`:
`x[i] + (h - i)·(x[i+1] - x[i])` with `i = ⌊h⌋` (the out-of-range neighbour
defaults to `x[i]`, reached only with interpolation weight `0`). -/
def interpAt (s : List ℚ) (h : ℚ) : ℚ :=
  let i := (Int.floor h).toNat
  let lo := s.getD i 0
  let hi := s.getD (i + 1) lo
  lo + (h - (i : ℚ)) * (hi - lo)

/-- `np.percentile(data, q)` with the default linear interpolation. -/
def percentile (l : List ℚ) (q : ℚ) : ℚ :=
  interpAt (pysort l) (((l.length : ℚ) - 1) * q / 100)

/-- `np.median(data)`: mean of the two middle elements of the sorted data
for even length, the middle element for odd length. -/
def npMedian (l : List ℚ) : ℚ :=
  let s := pysort l
  let n := l.length
  if n % 2 = 0 then (s.getD (n / 2 - 1) 0 + s.getD (n / 2) 0) / 2
  else s.getD (n / 2) 0

/-- `LatencyAnalyzer.calculate_percentiles`. -/
def calculate_percentiles (data : List ℚ) : Percentiles :=
  if data = [] then
    { count := 0, min := 0, max := 0, mean := 0, median := 0,
      p50 := 0, p95 := 0, p99 := 0, p99_9 := 0, p99_99 := 0 }
  else
    let s := pysort data
    let n := data.length
    { count := n
      min := s.getD 0 0
      max := s.getD (n - 1) 0
      mean := data.sum / (n : ℚ)
      median := npMedian data
      p50 := percentile data 50
      p95 := percentile data 95
      p99 := percentile data 99
      p99_9 := percentile data (999 / 10)
      p99_99 := percentile data (9999 / 100) }

/-- The throughput dictionary built by `calculate_throughput`: its only
possible keys are `warmup_iops` and `overwrite_iops`. -/
structure Throughput where
  warmup_iops : Option ℚ
  overwrite_iops : Option ℚ
deriving DecidableEq, Repr

/-- `LatencyAnalyzer.calculate_throughput`.  Mirrors the Python exactly:
`metadata.get('warmup_duration', 0) > 0` (TypeError on a string), then the
unguarded lookups `metadata['warmup_ops']` and `metadata['overwrites']`
(KeyError when absent), while `victim_reads` uses `.get(..., 0)`. -/
def calculate_throughput (md : Dict) : Except PyErr Throughput :=
  match (md.getD "warmup_duration" (.int 0)).num with
  | none => .error .typeError
  | some wd =>
    let warmupStep : Except PyErr (Option ℚ) :=
      if wd > 0 then
        match md.get "warmup_ops" with
        | none => .error .keyError
        | some wo =>
          match wo.num with
          | none => .error .typeError
          | some woq => .ok (some (woq / wd))
      else .ok none
    match warmupStep with
    | .error e => .error e
    | .ok wiops =>
      match (md.getD "overwrite_duration" (.int 0)).num with
      | none => .error .typeError
      | some od =>
        if od > 0 then
          match md.get "overwrites" with
          | none => .error .keyError
          | some ow =>
            match ow.num, (md.getD "victim_reads" (.int 0)).num with
            | some owq, some vrq => .ok ⟨wiops, some ((owq + vrq) / od)⟩
            | _, _ => .error .typeError
        else .ok ⟨wiops, none⟩

/-- `LatencyAnalyzer.calculate_waf`.  `host_writes` sums the four write
counters with `.get(key, 0)` defaults; a string value anywhere in the sum
or in the subsequent comparisons raises `TypeError` in Python, modelled by
`.error .typeError`. -/
def calculate_waf (md : Dict) : Except PyErr ℚ := do
  match (md.getD "warmup_ops" (.int 0)).num,
        (md.getD "victim_writes" (.int 0)).num,
        (md.getD "noisy_writes" (.int 0)).num,
        (md.getD "overwrites" (.int 0)).num with
  | some w, some v, some n, some o =>
    let host_writes := w + v + n + o
    if host_writes = 0 then
      return 1
    else if o > 0 then
      return min (1 + o / host_writes * (5 / 2)) 5
    else
      return 1
  | _, _, _, _ => throw .typeError

/-- The per-run summary dictionary built by `get_summary`. -/
structure Summary where
  test_name : MetaVal
  duration : MetaVal
  throughput : Throughput
  waf : ℚ
  latencies : List (String × Percentiles)
deriving DecidableEq, Repr

/-- Lookup in the `latencies` mapping of a summary. -/
def latGet (l : List (String × Percentiles)) (k : String) : Option Percentiles :=
  (List.find? (fun p => p.1 == k) l).map (fun p => p.2)

/-- `LatencyAnalyzer.get_summary`: `test_name` and `duration` default via
`.get`, then throughput and WAF are computed, and percentile records are
attached for every phase whose sample sequence is non-empty. -/
def get_summary (md : Dict) (lats : List (String × List ℚ)) :
    Except PyErr Summary := do
  let tp ← calculate_throughput md
  let waf ← calculate_waf md
  return { test_name := md.getD "test_name" (.str "Unknown")
           duration := md.getD "test_duration" (.int 0)
           throughput := tp
           waf := waf
           latencies := lats.filterMap fun p =>
             if p.2 ≠ [] then some (p.1, calculate_percentiles p.2) else none }

/-- The metric names iterated over by the victim-read table of the report. -/
def reportMetrics : List String :=
  ["mean", "median", "p50", "p95", "p99", "p99.9", "p99.99"]

/-- Dict-style access `stats.get(metric, 0)` on a percentile record. -/
def metricVal (p : Percentiles) (m : String) : ℚ :=
  if m = "mean" then p.mean
  else if m = "median" then p.median
  else if m = "p50" then p.p50
  else if m = "p95" then p.p95
  else if m = "p99" then p.p99
  else if m = "p99.9" then p.p99_9
  else if m = "p99.99" then p.p99_99
  else if m = "min" then p.min
  else if m = "max" then p.max
  else if m = "count" then (p.count : ℚ)
  else 0

/-- One rendered row of the victim-read comparison table. -/
structure Row where
  metric : String
  nf : ℚ
  fdp : ℚ
  improvement : ℚ
deriving DecidableEq, Repr

/-- Round half to even, as Python's float formatting does. -/
def roundHalfEven (x : ℚ) : ℤ :=
  let n := Int.floor x
  let r := x - n
  if r < 1 / 2 then n
  else if 1 / 2 < r then n + 1
  else if n % 2 = 0 then n else n + 1

/-- Python's `f"{q:+.1f}"`: explicit sign and one decimal digit. -/
def formatSignedTenth (q : ℚ) : String :=
  let sign := if q < 0 then "-" else "+"
  let t := (roundHalfEven (|q| * 10)).toNat
  sign ++ toString (t / 10) ++ "." ++ toString (t % 10)

/-- The improvement column text of a table row, `f"{improvement:+.1f}%"`. -/
def Row.improvementText (r : Row) : String :=
  formatSignedTenth r.improvement ++ "%"

/-- The victim-read table body of `generate_report`: one row per metric in
`reportMetrics`, rendered only when the baseline value is `> 0`, with
improvement `(nf - f_val) / nf * 100`. -/
def victimReadRows (a b : Percentiles) : List Row :=
  reportMetrics.filterMap fun m =>
    if metricVal a m > 0 then
      some ⟨m, metricVal a m, metricVal b m,
            (metricVal a m - metricVal b m) / metricVal a m * 100⟩
    else none

/-- The structured content of `analysis_report.txt` as written by a
successful `generate_report`: `none` in an `Option` field means the
corresponding section body was omitted (nothing substituted). -/
structure Report where
  nf_duration : MetaVal
  fdp_duration : MetaVal
  nf_waf : ℚ
  fdp_waf : ℚ
  victimReadTable : Option (List Row)
  throughputSection : Option (ℚ × ℚ)
  wafReduction : ℚ
  keyFindings : Option ℚ
deriving DecidableEq, Repr

/-- `generate_report`.  Faithful to the Python control flow, including its
two asymmetric guards: the throughput section tests only the baseline for
`overwrite_iops` and then indexes the treatment dict (KeyError when the
treatment lacks it), and the key-findings block tests only the baseline for
`victim_read` while reading locals `no_fdp`/`fdp` that were bound only when
BOTH summaries had it (UnboundLocalError otherwise); the P99 finding also
divides by the baseline p99 unguarded, and the WAF reduction divides by the
baseline WAF unguarded. -/
def generate_report (nf fdp : Summary) : Except PyErr Report := do
  let vr_nf := latGet nf.latencies "victim_read"
  let vr_f := latGet fdp.latencies "victim_read"
  let table : Option (List Row) :=
    match vr_nf, vr_f with
    | some a, some b => some (victimReadRows a b)
    | _, _ => none
  let tp : Option (ℚ × ℚ) ←
    match nf.throughput.overwrite_iops with
    | some x =>
      match fdp.throughput.overwrite_iops with
      | some y => pure (some (x, y))
      | none => throw .keyError
    | none => pure none
  if nf.waf = 0 then throw .zeroDiv
  let wafRed := (nf.waf - fdp.waf) / nf.waf * 100
  let findings : Option ℚ ←
    if (vr_nf).isSome then
      match vr_nf, vr_f with
      | some a, some b =>
        if a.p99 = 0 then throw .zeroDiv
        else pure (some ((a.p99 - b.p99) / a.p99 * 100))
      | _, _ => throw .unboundLocal
    else pure none
  return { nf_duration := nf.duration, fdp_duration := fdp.duration
           nf_waf := nf.waf, fdp_waf := fdp.waf
           victimReadTable := table
           throughputSection := tp
           wafReduction := wafRed
           keyFindings := findings }

/-- The WAF reference formula as the spec states it: with
`host_writes = warmup_ops + victim_writes + noisy_writes + overwrites`,
return `1.0` if `host_writes == 0`, else `min (1.0 + overwrites/host_writes * 2.5) 5.0`
if `overwrites > 0`, else `1.0`. -/
def waf_spec (w v n o : ℚ) : ℚ :=
  if w + v + n + o = 0 then 1
  else if 0 < o then min (1 + o / (w + v + n + o) * (5 / 2)) 5
  else 1

/-- The first row of a rendered table carrying a given metric name. -/
def rowFor (rows : List Row) (m : String) : Option Row :=
  List.find? (fun r => r.metric == m) rows

/-! Concrete fixtures used by the closed theorems below. -/

/-- A victim-read percentile record with every metric equal to `200`. -/
def vrBase : Percentiles :=
  { count := 2, min := 100, max := 300, mean := 200, median := 200,
    p50 := 200, p95 := 200, p99 := 200, p99_9 := 200, p99_99 := 200 }

/-- A victim-read percentile record with every metric equal to `100`. -/
def vrTreat : Percentiles :=
  { count := 2, min := 50, max := 150, mean := 100, median := 100,
    p50 := 100, p95 := 100, p99 := 100, p99_9 := 100, p99_99 := 100 }

/-- A summary whose latencies mapping contains the `victim_read` phase. -/
def sumWithVr : Summary :=
  { test_name := .str "base", duration := .int 60, throughput := ⟨none, none⟩,
    waf := 2, latencies := [("victim_read", vrBase)] }

/-- A summary whose latencies mapping lacks the `victim_read` phase. -/
def sumNoVr : Summary :=
  { test_name := .str "treat", duration := .int 60, throughput := ⟨none, none⟩,
    waf := 1, latencies := [] }

/-- A summary whose throughput mapping contains `overwrite_iops = 100`. -/
def sumTpA : Summary := { sumNoVr with throughput := ⟨none, some 100⟩ }

/-- A summary whose throughput mapping contains `overwrite_iops = 120`. -/
def sumTpB : Summary := { sumNoVr with throughput := ⟨none, some 120⟩ }

/-- The summary `get_summary` builds from `warmup_ops=-7, overwrites=2`
metadata: its WAF estimate is exactly `0`. -/
def sumWafZero : Summary :=
  { test_name := .str "Unknown", duration := .int 0, throughput := ⟨none, none⟩,
    waf := 0, latencies := [] }

/-- The summary `get_summary` builds from empty metadata. -/
def sumEmptyMeta : Summary :=
  { test_name := .str "Unknown", duration := .int 0, throughput := ⟨none, none⟩,
    waf := 1, latencies := [] }

/-- `vrBase` with its p99 metric zeroed out. -/
def vrBaseP99Zero : Percentiles := { vrBase with p99 := 0 }

/-- The summary `get_summary` builds from `warmup_ops=100, overwrites=50`
metadata: its WAF estimate is `1 + (50/150)·2.5 = 11/6`. -/
def sumEstimate : Summary :=
  { test_name := .str "Unknown", duration := .int 0, throughput := ⟨none, none⟩,
    waf := 11 / 6, latencies := [] }

/-- C5: for the empty sample sequence, `calculate_percentiles` returns the
sentinel record with `count = 0` and every other numeric field exactly `0`
(total fields, so nothing is NaN or absent). -/
theorem calculate_percentiles_empty_sentinel :
    (calculate_percentiles []).count = 0 ∧
    (calculate_percentiles []).min = 0 ∧ (calculate_percentiles []).max = 0 ∧
    (calculate_percentiles []).mean = 0 ∧ (calculate_percentiles []).median = 0 ∧
    (calculate_percentiles []).p50 = 0 ∧ (calculate_percentiles []).p95 = 0 ∧
    (calculate_percentiles []).p99 = 0 ∧ (calculate_percentiles []).p99_9 = 0 ∧
    (calculate_percentiles []).p99_99 = 0 :=
  ⟨rfl, rfl, rfl, rfl, rfl, rfl, rfl, rfl, rfl, rfl⟩

/-- C7: metadata loading applies the three-way coercion: the three-line file
`test_name=run1`, `warmup_ops=500`, `warmup_duration=5.0` loads to a string,
an int and a float respectively; a line without `=` is skipped; a line with
several `=` splits on the first one only. -/
theorem load_metadata_roundtrip :
    (load_metadata ["test_name=run1", "warmup_ops=500", "warmup_duration=5.0"]).get
      "test_name" = some (.str "run1") ∧
    (load_metadata ["test_name=run1", "warmup_ops=500", "warmup_duration=5.0"]).get
      "warmup_ops" = some (.int 500) ∧
    (load_metadata ["test_name=run1", "warmup_ops=500", "warmup_duration=5.0"]).get
      "warmup_duration" = some (.float 5) ∧
    load_metadata ["a line without an equals sign"] = [] ∧
    (load_metadata ["a=b=c"]).get "a" = some (.str "b=c") := by
  refine ⟨?_, ?_, ?_, ?_, ?_⟩ <;>
    (simp [load_metadata, loadMetadataLine, coerceValue, pyFloat, pyInt, mantissaVal,
      signedMantissaVal, digitsVal, pyStrip, Dict.insert, Dict.get, Dict.getD];
     try norm_num)

/-- C1 (code bug): when the `victim_read` phase is absent from the baseline
summary's latencies, `generate_report` does omit the percentile table and the
P99 finding without failing; but when it is absent only from the treatment
summary, the key-findings guard (which tests just the baseline) reaches the
locals bound inside the both-summaries branch and the report generation dies
with `UnboundLocalError` instead of omitting the sections. -/
theorem generate_report_victim_read_absent :
    generate_report sumWithVr sumNoVr = .error .unboundLocal ∧
    generate_report sumNoVr sumWithVr =
      .ok { nf_duration := .int 60, fdp_duration := .int 60, nf_waf := 1, fdp_waf := 2,
            victimReadTable := none, throughputSection := none,
            wafReduction := -100, keyFindings := none } := by
  constructor
  · simp [generate_report, latGet, sumWithVr, sumNoVr, vrBase, throw, throwThe,
      MonadExceptOf.throw, Functor.map, Except.map]
  · simp [generate_report, latGet, sumWithVr, sumNoVr, vrBase, pure, Except.pure,
      Bind.bind, Except.bind]
    norm_num

/-- C3 (code bug): the throughput section is rendered when both summaries
carry `overwrite_iops` and omitted without failure when the baseline lacks
it, but when the baseline has it and the treatment lacks it the unguarded
treatment lookup raises `KeyError` instead of omitting the section. -/
theorem generate_report_throughput_guard :
    generate_report sumTpA sumNoVr = .error .keyError ∧
    generate_report sumNoVr sumTpA =
      .ok { nf_duration := .int 60, fdp_duration := .int 60, nf_waf := 1, fdp_waf := 1,
            victimReadTable := none, throughputSection := none,
            wafReduction := 0, keyFindings := none } ∧
    generate_report sumTpA sumTpB =
      .ok { nf_duration := .int 60, fdp_duration := .int 60, nf_waf := 1, fdp_waf := 1,
            victimReadTable := none, throughputSection := some (100, 120),
            wafReduction := 0, keyFindings := none } := by
  refine ⟨?_, ?_, ?_⟩ <;>
    (simp [generate_report, latGet, sumTpA, sumTpB, sumNoVr, throw, throwThe,
      MonadExceptOf.throw, Functor.map, Except.map, pure, Except.pure,
      Bind.bind, Except.bind];
     try norm_num)

/-- C2 (counterexample): `calculate_throughput` does fail on an absent key —
with `warmup_duration = 5.0` and `warmup_ops` absent it raises `KeyError`
rather than returning `warmup_iops = 0`, and likewise for
`overwrite_duration` with `overwrites` absent. -/
theorem calculate_throughput_keyError_cex :
    calculate_throughput [("warmup_duration", MetaVal.float 5)] = .error .keyError ∧
    calculate_throughput [("overwrite_duration", MetaVal.float 5)] = .error .keyError := by
  constructor <;>
    (simp [calculate_throughput, Dict.getD, Dict.get, MetaVal.num]; try norm_num)

/-- C2 (amended): `calculate_throughput` raises `KeyError` when
`warmup_duration > 0` with `warmup_ops` absent, and when
`overwrite_duration > 0` with `overwrites` absent; only `victim_reads`
defaults to `0` at point of use, and when every duration key is absent the
call cannot fail and returns the empty throughput mapping. -/
theorem calculate_throughput_amended :
    (∀ (md : Dict) (d : ℚ), (md.getD "warmup_duration" (.int 0)).num = some d →
      0 < d → md.get "warmup_ops" = none →
      calculate_throughput md = .error .keyError) ∧
    (∀ (md : Dict) (wd d : ℚ), (md.getD "warmup_duration" (.int 0)).num = some wd →
      wd ≤ 0 → (md.getD "overwrite_duration" (.int 0)).num = some d → 0 < d →
      md.get "overwrites" = none →
      calculate_throughput md = .error .keyError) ∧
    (∀ (md : Dict) (wd d : ℚ) (ow : MetaVal) (o : ℚ),
      (md.getD "warmup_duration" (.int 0)).num = some wd → wd ≤ 0 →
      (md.getD "overwrite_duration" (.int 0)).num = some d → 0 < d →
      md.get "overwrites" = some ow → ow.num = some o →
      md.get "victim_reads" = none →
      calculate_throughput md = .ok ⟨none, some (o / d)⟩) ∧
    (∀ md : Dict, md.get "warmup_duration" = none →
      md.get "overwrite_duration" = none →
      calculate_throughput md = .ok ⟨none, none⟩) := by
  refine ⟨?_, ?_, ?_, ?_⟩
  · intro md d h hd habs
    simp [calculate_throughput, h, habs, hd]
  · intro md wd d h1 h2 h3 h4 h5
    simp [calculate_throughput, h1, h3, h5, h4, not_lt.mpr h2]
  · intro md wd d ow o h1 h2 h3 h4 h5 h6 h7
    have h7' : (md.getD "victim_reads" (MetaVal.int 0)).num = some 0 := by
      simp [Dict.getD, h7, MetaVal.num]
    simp [calculate_throughput, h1, h3, h5, h6, h7', h4, not_lt.mpr h2]
  · intro md h1 h2
    simp [calculate_throughput, Dict.getD, h1, h2, MetaVal.num]

/-- Witness for the amended C2 theorem at concrete metadata dictionaries. -/
theorem calculate_throughput_amended_witness :
    calculate_throughput [("warmup_duration", MetaVal.float 5)] = .error .keyError ∧
    calculate_throughput [("overwrite_duration", MetaVal.float 5)] = .error .keyError ∧
    calculate_throughput [("overwrite_duration", MetaVal.int 10), ("overwrites", MetaVal.int 1000)] =
      .ok ⟨none, some ((1000 : ℚ) / 10)⟩ ∧
    calculate_throughput [("test_name", MetaVal.str "run1")] = .ok ⟨none, none⟩ :=
  ⟨calculate_throughput_amended.1 _ 5
      (by simp [Dict.getD, Dict.get, MetaVal.num]) (by norm_num)
      (by simp [Dict.get]),
   calculate_throughput_amended.2.1 _ 0 5
      (by simp [Dict.getD, Dict.get, MetaVal.num])
      le_rfl
      (by simp [Dict.getD, Dict.get, MetaVal.num]) (by norm_num)
      (by simp [Dict.get]),
   calculate_throughput_amended.2.2.1 _ 0 10 (MetaVal.int 1000) 1000
      (by simp [Dict.getD, Dict.get, MetaVal.num])
      le_rfl
      (by simp [Dict.getD, Dict.get, MetaVal.num]) (by norm_num)
      (by simp [Dict.get]) (by simp [MetaVal.num])
      (by simp [Dict.get]),
   calculate_throughput_amended.2.2.2 _
      (by simp [Dict.get]) (by simp [Dict.get])⟩

/-- When the four write-counter metadata entries are numeric,
`calculate_waf` computes exactly the spec's piecewise formula. -/
theorem calculate_waf_eq_spec (md : Dict) (w v n o : ℚ)
    (hw : (md.getD "warmup_ops" (.int 0)).num = some w)
    (hv : (md.getD "victim_writes" (.int 0)).num = some v)
    (hn : (md.getD "noisy_writes" (.int 0)).num = some n)
    (ho : (md.getD "overwrites" (.int 0)).num = some o) :
    calculate_waf md = .ok (waf_spec w v n o) := by
  simp only [calculate_waf, hw, hv, hn, ho, waf_spec]
  split_ifs <;> simp [pure, Except.pure]

/-- The spec's WAF formula stays inside `[1, 5]` on non-negative inputs. -/
theorem waf_spec_bounds (w v n o : ℚ)
    (hw : 0 ≤ w) (hv : 0 ≤ v) (hn : 0 ≤ n) (_ho : 0 ≤ o) :
    1 ≤ waf_spec w v n o ∧ waf_spec w v n o ≤ 5 := by
  unfold waf_spec
  split_ifs with h1 h2
  · norm_num
  · have hhost : 0 < w + v + n + o := by
      rcases lt_or_eq_of_le (by positivity : (0 : ℚ) ≤ w + v + n + o) with h | h
      · exact h
      · exact absurd h.symm h1
    have hr : 0 ≤ o / (w + v + n + o) := by positivity
    constructor
    · exact le_min (by nlinarith) (by norm_num)
    · exact min_le_right _ _
  · norm_num

/-- C4: for metadata whose write counters are non-negative numbers,
`calculate_waf` returns exactly the piecewise reference value `waf_spec`
(`1` when `host_writes = 0`, else `min (1 + overwrites/host_writes * 2.5) 5`
when `overwrites > 0`, else `1`), and that value lies in `[1, 5]`. -/
theorem calculate_waf_matches_spec (md : Dict) (w v n o : ℚ)
    (hw : (md.getD "warmup_ops" (.int 0)).num = some w)
    (hv : (md.getD "victim_writes" (.int 0)).num = some v)
    (hn : (md.getD "noisy_writes" (.int 0)).num = some n)
    (ho : (md.getD "overwrites" (.int 0)).num = some o)
    (hw0 : 0 ≤ w) (hv0 : 0 ≤ v) (hn0 : 0 ≤ n) (ho0 : 0 ≤ o) :
    calculate_waf md = .ok (waf_spec w v n o) ∧
    1 ≤ waf_spec w v n o ∧ waf_spec w v n o ≤ 5 :=
  ⟨calculate_waf_eq_spec md w v n o hw hv hn ho,
   (waf_spec_bounds w v n o hw0 hv0 hn0 ho0).1,
   (waf_spec_bounds w v n o hw0 hv0 hn0 ho0).2⟩

/-- Witness for C4 at the metadata `warmup_ops=100, overwrites=50`. -/
theorem calculate_waf_matches_spec_witness :
    calculate_waf [("warmup_ops", MetaVal.int 100), ("overwrites", MetaVal.int 50)] =
      .ok (waf_spec 100 0 0 50) ∧
    1 ≤ waf_spec 100 0 0 50 ∧ waf_spec 100 0 0 50 ≤ 5 :=
  calculate_waf_matches_spec _ 100 0 0 50
    (by simp [Dict.getD, Dict.get, MetaVal.num])
    (by simp [Dict.getD, Dict.get, MetaVal.num])
    (by simp [Dict.getD, Dict.get, MetaVal.num])
    (by simp [Dict.getD, Dict.get, MetaVal.num])
    (by norm_num) (by norm_num) (by norm_num) (by norm_num)

/-- A successful `get_summary` stores exactly the value computed by
`calculate_waf` in the summary's `waf` field. -/
theorem get_summary_waf (md : Dict) (lats : List (String × List ℚ)) (s : Summary)
    (h : get_summary md lats = .ok s) : calculate_waf md = .ok s.waf := by
  cases h1 : calculate_throughput md with
  | error e => simp [get_summary, h1, Bind.bind, Except.bind] at h
  | ok tp =>
    cases h2 : calculate_waf md with
    | error e => simp [get_summary, h1, h2, Bind.bind, Except.bind] at h
    | ok w =>
      simp [get_summary, h1, h2, Bind.bind, Except.bind, pure, Except.pure] at h
      simp [← h]

/-- C10 (counterexample): `calculate_waf` does NOT return a value `≥ 1` for
every metadata: parsed metadata `warmup_ops=-7, overwrites=2` gives a WAF of
exactly `0`, and the report generation on the summaries `get_summary` builds
from it dies with `ZeroDivisionError` in the WAF-reduction computation. -/
theorem waf_reduction_zero_div_cex :
    calculate_waf (load_metadata ["warmup_ops=-7", "overwrites=2"]) = .ok 0 ∧
    get_summary (load_metadata ["warmup_ops=-7", "overwrites=2"]) [] = .ok sumWafZero ∧
    get_summary [] [] = .ok sumEmptyMeta ∧
    generate_report sumWafZero sumEmptyMeta = .error .zeroDiv := by
  refine ⟨?_, ?_, ?_, ?_⟩
  · simp [load_metadata, loadMetadataLine, coerceValue, pyFloat, pyInt, mantissaVal,
      signedMantissaVal, digitsVal, pyStrip, Dict.insert, calculate_waf,
      Dict.getD, Dict.get, MetaVal.num, pure, Except.pure]
    norm_num
  · simp [load_metadata, loadMetadataLine, coerceValue, pyFloat, pyInt, mantissaVal,
      signedMantissaVal, digitsVal, pyStrip, Dict.insert, get_summary,
      calculate_throughput, calculate_waf, Dict.getD, Dict.get, MetaVal.num,
      pure, Except.pure, Bind.bind, Except.bind, sumWafZero]
    norm_num
  · simp [get_summary, calculate_throughput, calculate_waf, Dict.getD, Dict.get,
      MetaVal.num, pure, Except.pure, Bind.bind, Except.bind, sumEmptyMeta]
  · simp [generate_report, latGet, sumWafZero, sumEmptyMeta, throw, throwThe,
      MonadExceptOf.throw, Functor.map, Except.map, pure, Except.pure,
      Bind.bind, Except.bind]

/-- C10 (amended): for summaries produced by `get_summary` from metadata
whose write counters are non-negative numbers, the baseline WAF is `≥ 1`,
hence nonzero, so the WAF-reduction division in the report is
well-defined. -/
theorem waf_reduction_well_defined_of_nonneg (md : Dict)
    (lats : List (String × List ℚ)) (s : Summary) (w v n o : ℚ)
    (hw : (md.getD "warmup_ops" (.int 0)).num = some w)
    (hv : (md.getD "victim_writes" (.int 0)).num = some v)
    (hn : (md.getD "noisy_writes" (.int 0)).num = some n)
    (ho : (md.getD "overwrites" (.int 0)).num = some o)
    (hw0 : 0 ≤ w) (hv0 : 0 ≤ v) (hn0 : 0 ≤ n) (ho0 : 0 ≤ o)
    (hs : get_summary md lats = .ok s) :
    1 ≤ s.waf ∧ s.waf ≠ 0 := by
  have h1 := get_summary_waf md lats s hs
  have h2 := calculate_waf_eq_spec md w v n o hw hv hn ho
  rw [h1] at h2
  have hsw : s.waf = waf_spec w v n o := by
    injection h2
  have hb := waf_spec_bounds w v n o hw0 hv0 hn0 ho0
  rw [hsw]
  exact ⟨hb.1, (lt_of_lt_of_le zero_lt_one hb.1).ne'⟩

/-- Witness for the amended C10 theorem at `warmup_ops=100, overwrites=50`. -/
theorem waf_reduction_well_defined_witness :
    1 ≤ sumEstimate.waf ∧ sumEstimate.waf ≠ 0 :=
  waf_reduction_well_defined_of_nonneg
    [("warmup_ops", MetaVal.int 100), ("overwrites", MetaVal.int 50)] [] sumEstimate
    100 0 0 50
    (by simp [Dict.getD, Dict.get, MetaVal.num])
    (by simp [Dict.getD, Dict.get, MetaVal.num])
    (by simp [Dict.getD, Dict.get, MetaVal.num])
    (by simp [Dict.getD, Dict.get, MetaVal.num])
    (by norm_num) (by norm_num) (by norm_num) (by norm_num)
    (by simp [get_summary, calculate_throughput, calculate_waf, Dict.getD, Dict.get,
          MetaVal.num, pure, Except.pure, Bind.bind, Except.bind, sumEstimate]
        norm_num [min_def])

/-- Finding a row by metric name in a table built by `filterMap` over
distinct metric names recovers exactly the generator's output at that
name. -/
theorem rowFor_filterMap (g : String → Option Row)
    (hg : ∀ x r, g x = some r → r.metric = x) :
    ∀ ms : List String, ms.Nodup → ∀ m : String, m ∈ ms →
      rowFor (ms.filterMap g) m = g m := by
  intro ms
  induction ms with
  | nil => intro _ m hm; cases hm
  | cons x rest ih =>
    intro hnd m hm
    rw [List.nodup_cons] at hnd
    cases hgx : g x with
    | none =>
      rw [List.filterMap_cons_none hgx]
      rcases List.mem_cons.mp hm with rfl | hm'
      · rw [hgx, rowFor]
        apply List.find?_eq_none.mpr
        intro r hr
        rcases List.mem_filterMap.mp hr with ⟨y, hy, hgy⟩
        have hry := hg y r hgy
        simp only [beq_iff_eq, hry]
        exact fun hym => hnd.1 (hym ▸ hy)
      · exact ih hnd.2 m hm'
    | some r =>
      have hrx : r.metric = x := hg x r hgx
      rw [List.filterMap_cons_some hgx]
      rcases List.mem_cons.mp hm with rfl | hm'
      · rw [rowFor, List.find?_cons_of_pos, hgx]
        simp [hrx]
      · rw [rowFor, List.find?_cons_of_neg]
        · exact ih hnd.2 m hm'
        · simp only [beq_iff_eq, hrx]
          exact fun hxm => hnd.1 (hxm ▸ hm')

/-- The victim-read table carries a row for a metric name exactly when the
baseline value of that metric is positive. -/
theorem rowFor_victimReadRows (a b : Percentiles) (m : String)
    (hm : m ∈ reportMetrics) :
    rowFor (victimReadRows a b) m =
      if metricVal a m > 0 then
        some ⟨m, metricVal a m, metricVal b m,
              (metricVal a m - metricVal b m) / metricVal a m * 100⟩
      else none := by
  have hg : ∀ (x : String) (r : Row),
      (if metricVal a x > 0 then
        some (⟨x, metricVal a x, metricVal b x,
              (metricVal a x - metricVal b x) / metricVal a x * 100⟩ : Row)
      else none) = some r → r.metric = x := by
    intro x r h
    split_ifs at h
    · cases h; rfl
  have hnd : reportMetrics.Nodup := by decide
  exact rowFor_filterMap _ hg reportMetrics hnd m hm

/-- C6: each of the seven metric rows of the victim-read table is rendered
iff the baseline value is `> 0`, carrying improvement
`(baseline - treatment) / baseline * 100`; with baseline p99 `200` and
treatment p99 `100` the rendered improvement column reads `+50.0%`, and with
baseline p99 `0` the P99 row is omitted. -/
theorem victim_read_table_improvements :
    (∀ a b : Percentiles, rowFor (victimReadRows a b) "mean" =
      if a.mean > 0 then
        some ⟨"mean", a.mean, b.mean, (a.mean - b.mean) / a.mean * 100⟩ else none) ∧
    (∀ a b : Percentiles, rowFor (victimReadRows a b) "median" =
      if a.median > 0 then
        some ⟨"median", a.median, b.median, (a.median - b.median) / a.median * 100⟩ else none) ∧
    (∀ a b : Percentiles, rowFor (victimReadRows a b) "p50" =
      if a.p50 > 0 then
        some ⟨"p50", a.p50, b.p50, (a.p50 - b.p50) / a.p50 * 100⟩ else none) ∧
    (∀ a b : Percentiles, rowFor (victimReadRows a b) "p95" =
      if a.p95 > 0 then
        some ⟨"p95", a.p95, b.p95, (a.p95 - b.p95) / a.p95 * 100⟩ else none) ∧
    (∀ a b : Percentiles, rowFor (victimReadRows a b) "p99" =
      if a.p99 > 0 then
        some ⟨"p99", a.p99, b.p99, (a.p99 - b.p99) / a.p99 * 100⟩ else none) ∧
    (∀ a b : Percentiles, rowFor (victimReadRows a b) "p99.9" =
      if a.p99_9 > 0 then
        some ⟨"p99.9", a.p99_9, b.p99_9, (a.p99_9 - b.p99_9) / a.p99_9 * 100⟩ else none) ∧
    (∀ a b : Percentiles, rowFor (victimReadRows a b) "p99.99" =
      if a.p99_99 > 0 then
        some ⟨"p99.99", a.p99_99, b.p99_99, (a.p99_99 - b.p99_99) / a.p99_99 * 100⟩ else none) ∧
    (rowFor (victimReadRows vrBase vrTreat) "p99").map Row.improvementText = some "+50.0%" ∧
    rowFor (victimReadRows vrBaseP99Zero vrTreat) "p99" = none := by
  refine ⟨?_, ?_, ?_, ?_, ?_, ?_, ?_, ?_, ?_⟩
  · intro a b; simpa [metricVal] using rowFor_victimReadRows a b "mean" (by decide)
  · intro a b; simpa [metricVal] using rowFor_victimReadRows a b "median" (by decide)
  · intro a b; simpa [metricVal] using rowFor_victimReadRows a b "p50" (by decide)
  · intro a b; simpa [metricVal] using rowFor_victimReadRows a b "p95" (by decide)
  · intro a b; simpa [metricVal] using rowFor_victimReadRows a b "p99" (by decide)
  · intro a b; simpa [metricVal] using rowFor_victimReadRows a b "p99.9" (by decide)
  · intro a b; simpa [metricVal] using rowFor_victimReadRows a b "p99.99" (by decide)
  · rw [rowFor_victimReadRows vrBase vrTreat "p99" (by decide)]
    norm_num [metricVal, vrBase, vrTreat, Row.improvementText, formatSignedTenth,
      roundHalfEven]
    decide
  · rw [rowFor_victimReadRows vrBaseP99Zero vrTreat "p99" (by decide)]
    simp [metricVal, vrBaseP99Zero, vrBase]

/-- `pysort` sorts ascending. -/
theorem pysort_sorted (l : List ℚ) : (pysort l).Sorted (· ≤ ·) :=
  List.sorted_insertionSort _ l

/-- `pysort` permutes its input. -/
theorem pysort_perm (l : List ℚ) : (pysort l).Perm l :=
  List.perm_insertionSort _ l

/-- Sorting preserves length. -/
theorem pysort_length (l : List ℚ) : (pysort l).length = l.length :=
  (pysort_perm l).length_eq

/-- In a sorted list, in-bounds `getD` values are monotone in the index. -/
theorem sorted_getD_le (s : List ℚ) (hs : s.Sorted (· ≤ ·)) (i j : ℕ)
    (hij : i ≤ j) (hj : j < s.length) : s.getD i 0 ≤ s.getD j 0 := by
  rcases eq_or_lt_of_le hij with rfl | hlt
  · exact le_refl _
  · have hi : i < s.length := lt_trans hlt hj
    rw [List.getD_eq_getElem _ _ hi, List.getD_eq_getElem _ _ hj]
    exact List.pairwise_iff_getElem.mp hs i j hi hj hlt

/-- The default of an in-bounds `getD` is irrelevant. -/
theorem getD_irrel (s : List ℚ) (n : ℕ) (hn : n < s.length) (d : ℚ) :
    s.getD n d = s.getD n 0 := by
  rw [List.getD_eq_getElem _ _ hn, List.getD_eq_getElem _ _ hn]

/-- Every member of a sorted list is at least its first element. -/
theorem sorted_first_le (s : List ℚ) (hs : s.Sorted (· ≤ ·)) (x : ℚ) (hx : x ∈ s) :
    s.getD 0 0 ≤ x := by
  rcases List.mem_iff_getElem.mp hx with ⟨j, hj, rfl⟩
  calc s.getD 0 0 ≤ s.getD j 0 := sorted_getD_le s hs 0 j (Nat.zero_le j) hj
    _ = s[j] := List.getD_eq_getElem _ _ hj

/-- Every member of a sorted list is at most its last element. -/
theorem sorted_le_last (s : List ℚ) (hs : s.Sorted (· ≤ ·)) (x : ℚ) (hx : x ∈ s) :
    x ≤ s.getD (s.length - 1) 0 := by
  rcases List.mem_iff_getElem.mp hx with ⟨j, hj, rfl⟩
  have hlast : s.length - 1 < s.length := by omega
  calc s[j] = s.getD j 0 := (List.getD_eq_getElem _ _ hj).symm
    _ ≤ s.getD (s.length - 1) 0 := sorted_getD_le s hs j (s.length - 1) (by omega) hlast

/-- For non-negative `h`, the `ℕ`-valued floor casts back to `⌊h⌋`. -/
theorem toNat_floor_cast (h : ℚ) (h0 : 0 ≤ h) : ((⌊h⌋.toNat : ℕ) : ℚ) = (⌊h⌋ : ℚ) := by
  have := Int.toNat_of_nonneg (Int.floor_nonneg.mpr h0)
  exact_mod_cast congrArg (fun z : ℤ => (z : ℚ)) this

/-- Unfolded form of the linear interpolation. -/
theorem interpAt_def (s : List ℚ) (h : ℚ) :
    interpAt s h =
      s.getD (⌊h⌋.toNat) 0 + (h - ((⌊h⌋.toNat : ℕ) : ℚ)) *
        (s.getD (⌊h⌋.toNat + 1) (s.getD (⌊h⌋.toNat) 0) - s.getD (⌊h⌋.toNat) 0) := rfl

/-- The interpolation cell index is in bounds when `h ≤ length - 1`. -/
theorem floor_toNat_lt_length (s : List ℚ) (h : ℚ) (h0 : 0 ≤ h)
    (hub : h ≤ (s.length : ℚ) - 1) : ⌊h⌋.toNat < s.length := by
  have h1 : ((⌊h⌋.toNat : ℕ) : ℚ) ≤ (s.length : ℚ) - 1 :=
    le_trans (le_trans (le_of_eq (toNat_floor_cast h h0)) (Int.floor_le h)) hub
  have h2 : ((⌊h⌋.toNat : ℕ) : ℚ) + 1 ≤ (s.length : ℚ) := by linarith
  exact_mod_cast h2

/-- In a sorted list the right neighbour of a cell is at least its left. -/
theorem sorted_getD_succ_ge (s : List ℚ) (hs : s.Sorted (· ≤ ·)) (i : ℕ) :
    s.getD i 0 ≤ s.getD (i + 1) (s.getD i 0) := by
  by_cases hc : i + 1 < s.length
  · rw [getD_irrel s (i+1) hc]
    exact sorted_getD_le s hs i (i+1) (Nat.le_succ i) hc
  · rw [List.getD_eq_default _ _ (le_of_not_lt hc)]

/-- Interpolation stays between the two cell endpoints. -/
theorem interpAt_bounds (s : List ℚ) (hs : s.Sorted (· ≤ ·)) (h : ℚ) (h0 : 0 ≤ h) :
    s.getD (⌊h⌋.toNat) 0 ≤ interpAt s h ∧
    interpAt s h ≤ s.getD (⌊h⌋.toNat + 1) (s.getD (⌊h⌋.toNat) 0) := by
  have hic : ((⌊h⌋.toNat : ℕ) : ℚ) ≤ h := le_trans (le_of_eq (toNat_floor_cast h h0)) (Int.floor_le h)
  have hug : h - ((⌊h⌋.toNat : ℕ) : ℚ) ≤ 1 := by
    have hlt := Int.lt_floor_add_one h
    rw [← toNat_floor_cast h h0] at hlt
    linarith
  have hlohi := sorted_getD_succ_ge s hs ⌊h⌋.toNat
  rw [interpAt_def]
  constructor
  · nlinarith
  · nlinarith

/-- Interpolation never exceeds the last element of the sorted list. -/
theorem interpAt_le_last (s : List ℚ) (hs : s.Sorted (· ≤ ·)) (h : ℚ) (h0 : 0 ≤ h)
    (hub : h ≤ (s.length : ℚ) - 1) :
    interpAt s h ≤ s.getD (s.length - 1) 0 := by
  have hi := floor_toNat_lt_length s h h0 hub
  have hb := (interpAt_bounds s hs h h0).2
  by_cases hc : ⌊h⌋.toNat + 1 < s.length
  · calc interpAt s h ≤ s.getD (⌊h⌋.toNat + 1) (s.getD (⌊h⌋.toNat) 0) := hb
      _ = s.getD (⌊h⌋.toNat + 1) 0 := getD_irrel _ _ hc _
      _ ≤ s.getD (s.length - 1) 0 := sorted_getD_le s hs _ _ (by omega) (by omega)
  · calc interpAt s h ≤ s.getD (⌊h⌋.toNat + 1) (s.getD (⌊h⌋.toNat) 0) := hb
      _ = s.getD (⌊h⌋.toNat) 0 := List.getD_eq_default _ _ (le_of_not_lt hc)
      _ ≤ s.getD (s.length - 1) 0 := sorted_getD_le s hs _ _ (by omega) (by omega)

/-- Interpolation is at least the first element of the sorted list. -/
theorem interpAt_ge_first (s : List ℚ) (hs : s.Sorted (· ≤ ·)) (h : ℚ) (h0 : 0 ≤ h)
    (hub : h ≤ (s.length : ℚ) - 1) :
    s.getD 0 0 ≤ interpAt s h :=
  le_trans
    (sorted_getD_le s hs 0 (⌊h⌋.toNat) (Nat.zero_le _) (floor_toNat_lt_length s h h0 hub))
    (interpAt_bounds s hs h h0).1

/-- Linear interpolation over a sorted list is monotone in the index. -/
theorem interpAt_mono (s : List ℚ) (hs : s.Sorted (· ≤ ·)) (h₁ h₂ : ℚ)
    (h0 : 0 ≤ h₁) (h12 : h₁ ≤ h₂) (hub : h₂ ≤ (s.length : ℚ) - 1) :
    interpAt s h₁ ≤ interpAt s h₂ := by
  have h0' : 0 ≤ h₂ := le_trans h0 h12
  have hii : ⌊h₁⌋.toNat ≤ ⌊h₂⌋.toNat := Int.toNat_le_toNat (Int.floor_mono h12)
  rcases eq_or_lt_of_le hii with heq | hlt
  · rw [interpAt_def s h₁, interpAt_def s h₂, ← heq]
    have hlohi := sorted_getD_succ_ge s hs (⌊h₁⌋.toNat)
    nlinarith
  · have hi2lt := floor_toNat_lt_length s h₂ h0' hub
    have hstep : ⌊h₁⌋.toNat + 1 ≤ ⌊h₂⌋.toNat := hlt
    calc interpAt s h₁ ≤ s.getD (⌊h₁⌋.toNat + 1) (s.getD (⌊h₁⌋.toNat) 0) :=
        (interpAt_bounds s hs h₁ h0).2
      _ = s.getD (⌊h₁⌋.toNat + 1) 0 := getD_irrel _ _ (lt_of_le_of_lt hstep hi2lt) _
      _ ≤ s.getD (⌊h₂⌋.toNat) 0 := sorted_getD_le s hs _ _ hstep hi2lt
      _ ≤ interpAt s h₂ := (interpAt_bounds s hs h₂ h0').1

/-- `np.percentile` is monotone in the rank for ranks in `[0, 100]`. -/
theorem percentile_mono (l : List ℚ) (hl : l ≠ []) (q₁ q₂ : ℚ)
    (h0 : 0 ≤ q₁) (h12 : q₁ ≤ q₂) (h100 : q₂ ≤ 100) :
    percentile l q₁ ≤ percentile l q₂ := by
  have hn : 1 ≤ l.length := List.length_pos.mpr hl
  have hnq : (1 : ℚ) ≤ (l.length : ℚ) := by exact_mod_cast hn
  have hnn : (0 : ℚ) ≤ (l.length : ℚ) - 1 := by linarith
  unfold percentile
  apply interpAt_mono _ (pysort_sorted l)
  · exact div_nonneg (mul_nonneg hnn h0) (by norm_num)
  · have := mul_le_mul_of_nonneg_left h12 hnn
    linarith
  · rw [pysort_length]
    have := mul_le_mul_of_nonneg_left h100 hnn
    linarith

/-- A percentile at rank in `[0, 100]` is at least the sample minimum. -/
theorem percentile_ge_min (l : List ℚ) (hl : l ≠ []) (q : ℚ)
    (h0 : 0 ≤ q) (h100 : q ≤ 100) :
    (pysort l).getD 0 0 ≤ percentile l q := by
  have hn : 1 ≤ l.length := List.length_pos.mpr hl
  have hnq : (1 : ℚ) ≤ (l.length : ℚ) := by exact_mod_cast hn
  have hnn : (0 : ℚ) ≤ (l.length : ℚ) - 1 := by linarith
  apply interpAt_ge_first _ (pysort_sorted l)
  · exact div_nonneg (mul_nonneg hnn h0) (by norm_num)
  · rw [pysort_length]
    have := mul_le_mul_of_nonneg_left h100 hnn
    linarith

/-- A percentile at rank in `[0, 100]` is at most the sample maximum. -/
theorem percentile_le_max (l : List ℚ) (hl : l ≠ []) (q : ℚ)
    (h0 : 0 ≤ q) (h100 : q ≤ 100) :
    percentile l q ≤ (pysort l).getD (l.length - 1) 0 := by
  have hn : 1 ≤ l.length := List.length_pos.mpr hl
  have hnq : (1 : ℚ) ≤ (l.length : ℚ) := by exact_mod_cast hn
  have hnn : (0 : ℚ) ≤ (l.length : ℚ) - 1 := by linarith
  have h := interpAt_le_last (pysort l) (pysort_sorted l)
    (((l.length : ℚ) - 1) * q / 100)
    (div_nonneg (mul_nonneg hnn h0) (by norm_num))
    (by rw [pysort_length]
        have := mul_le_mul_of_nonneg_left h100 hnn
        linarith)
  rw [pysort_length] at h
  exact h

/-- The arithmetic mean lies between the sample minimum and maximum. -/
theorem mean_bounds (l : List ℚ) (hl : l ≠ []) :
    (pysort l).getD 0 0 ≤ l.sum / (l.length : ℚ) ∧
    l.sum / (l.length : ℚ) ≤ (pysort l).getD (l.length - 1) 0 := by
  have hn : 0 < l.length := List.length_pos.mpr hl
  have hnq : (0 : ℚ) < (l.length : ℚ) := by exact_mod_cast hn
  have hmem : ∀ x ∈ l, (pysort l).getD 0 0 ≤ x := fun x hx =>
    sorted_first_le _ (pysort_sorted l) x ((pysort_perm l).mem_iff.mpr hx)
  have hmem' : ∀ x ∈ l, x ≤ (pysort l).getD (l.length - 1) 0 := by
    intro x hx
    have h := sorted_le_last _ (pysort_sorted l) x ((pysort_perm l).mem_iff.mpr hx)
    rwa [pysort_length] at h
  constructor
  · rw [le_div_iff₀ hnq]
    have h := List.card_nsmul_le_sum l _ hmem
    rw [nsmul_eq_mul] at h
    linarith [h]
  · rw [div_le_iff₀ hnq]
    have h := List.sum_le_card_nsmul l _ hmem'
    rw [nsmul_eq_mul] at h
    linarith [h]

/-- On a non-empty sample list the percentile record fields are the stated
statistics of the sorted samples. -/
theorem calculate_percentiles_nonempty (l : List ℚ) (hl : l ≠ []) :
    calculate_percentiles l =
      { count := l.length
        min := (pysort l).getD 0 0
        max := (pysort l).getD (l.length - 1) 0
        mean := l.sum / (l.length : ℚ)
        median := npMedian l
        p50 := percentile l 50
        p95 := percentile l 95
        p99 := percentile l 99
        p99_9 := percentile l (999 / 10)
        p99_99 := percentile l (9999 / 100) } := by
  simp [calculate_percentiles, hl]

/-- C9: for every non-empty sample sequence the record returned by
`calculate_percentiles` is internally ordered,
`min ≤ p50 ≤ p95 ≤ p99 ≤ p99.9 ≤ p99.99 ≤ max` with `min ≤ mean ≤ max`,
and `count` equals the number of samples. -/
theorem percentile_record_ordered (l : List ℚ) (hl : l ≠ []) :
    (calculate_percentiles l).min ≤ (calculate_percentiles l).p50 ∧
    (calculate_percentiles l).p50 ≤ (calculate_percentiles l).p95 ∧
    (calculate_percentiles l).p95 ≤ (calculate_percentiles l).p99 ∧
    (calculate_percentiles l).p99 ≤ (calculate_percentiles l).p99_9 ∧
    (calculate_percentiles l).p99_9 ≤ (calculate_percentiles l).p99_99 ∧
    (calculate_percentiles l).p99_99 ≤ (calculate_percentiles l).max ∧
    (calculate_percentiles l).min ≤ (calculate_percentiles l).mean ∧
    (calculate_percentiles l).mean ≤ (calculate_percentiles l).max ∧
    (calculate_percentiles l).count = l.length := by
  rw [calculate_percentiles_nonempty l hl]
  refine ⟨?_, ?_, ?_, ?_, ?_, ?_, ?_, ?_, rfl⟩
  · exact percentile_ge_min l hl 50 (by norm_num) (by norm_num)
  · exact percentile_mono l hl 50 95 (by norm_num) (by norm_num) (by norm_num)
  · exact percentile_mono l hl 95 99 (by norm_num) (by norm_num) (by norm_num)
  · exact percentile_mono l hl 99 (999 / 10) (by norm_num) (by norm_num) (by norm_num)
  · exact percentile_mono l hl (999 / 10) (9999 / 100) (by norm_num) (by norm_num)
      (by norm_num)
  · exact percentile_le_max l hl (9999 / 100) (by norm_num) (by norm_num)
  · exact (mean_bounds l hl).1
  · exact (mean_bounds l hl).2

/-- Witness for C9 on the sample list `[3, 1, 2]`. -/
theorem percentile_record_ordered_witness :
    ([(3 : ℚ), 1, 2] ≠ []) ∧
    ((calculate_percentiles [(3 : ℚ), 1, 2]).min ≤ (calculate_percentiles [(3 : ℚ), 1, 2]).p50 ∧
     (calculate_percentiles [(3 : ℚ), 1, 2]).p50 ≤ (calculate_percentiles [(3 : ℚ), 1, 2]).p95 ∧
     (calculate_percentiles [(3 : ℚ), 1, 2]).p95 ≤ (calculate_percentiles [(3 : ℚ), 1, 2]).p99 ∧
     (calculate_percentiles [(3 : ℚ), 1, 2]).p99 ≤ (calculate_percentiles [(3 : ℚ), 1, 2]).p99_9 ∧
     (calculate_percentiles [(3 : ℚ), 1, 2]).p99_9 ≤ (calculate_percentiles [(3 : ℚ), 1, 2]).p99_99 ∧
     (calculate_percentiles [(3 : ℚ), 1, 2]).p99_99 ≤ (calculate_percentiles [(3 : ℚ), 1, 2]).max ∧
     (calculate_percentiles [(3 : ℚ), 1, 2]).min ≤ (calculate_percentiles [(3 : ℚ), 1, 2]).mean ∧
     (calculate_percentiles [(3 : ℚ), 1, 2]).mean ≤ (calculate_percentiles [(3 : ℚ), 1, 2]).max ∧
     (calculate_percentiles [(3 : ℚ), 1, 2]).count = [(3 : ℚ), 1, 2].length) :=
  ⟨by simp, percentile_record_ordered [3, 1, 2] (by simp)⟩

/-- Interpolation at a point with known floor. -/
theorem interpAt_of_floor (s : List ℚ) (h : ℚ) (i : ℕ) (hf : ⌊h⌋ = (i : ℤ)) :
    interpAt s h =
      s.getD i 0 + (h - (i : ℚ)) * (s.getD (i + 1) (s.getD i 0) - s.getD i 0) := by
  unfold interpAt
  rw [hf]
  norm_num

/-- C8: for every non-empty sample sequence, the `p50` field and the
`median` field of `calculate_percentiles` coincide exactly (the
linear-interpolation 50th percentile equals numpy's median on both even and
odd sample counts). -/
theorem p50_eq_median (l : List ℚ) (hl : l ≠ []) :
    (calculate_percentiles l).p50 = (calculate_percentiles l).median := by
  rw [calculate_percentiles_nonempty l hl]
  show percentile l 50 = npMedian l
  have hn : 1 ≤ l.length := List.length_pos.mpr hl
  unfold percentile
  simp only [npMedian]
  rcases Nat.even_or_odd l.length with he | ho2
  · obtain ⟨k, hk⟩ := he
    have hk1 : 1 ≤ k := by omega
    have hmod : l.length % 2 = 0 := by omega
    have hdiv : l.length / 2 = k := by omega
    have hcast : (l.length : ℚ) = 2 * (k : ℚ) := by
      have h2 : l.length = 2 * k := by omega
      rw [h2]; push_cast; ring
    have hh : ((l.length : ℚ) - 1) * 50 / 100 = (k : ℚ) - 1 / 2 := by
      rw [hcast]; ring
    rw [hh]
    have hf : ⌊(k : ℚ) - 1 / 2⌋ = ((k - 1 : ℕ) : ℤ) := by
      rw [Int.floor_eq_iff]
      push_cast [Nat.cast_sub hk1]
      constructor <;> linarith
    rw [interpAt_of_floor _ _ (k - 1) hf]
    have hg : ((k : ℚ) - 1 / 2) - ((k - 1 : ℕ) : ℚ) = 1 / 2 := by
      push_cast [Nat.cast_sub hk1]; ring
    rw [hg, if_pos hmod, hdiv]
    have hkk : k - 1 + 1 = k := by omega
    rw [hkk]
    have hlen : k < (pysort l).length := by rw [pysort_length]; omega
    rw [getD_irrel _ k hlen]
    ring
  · obtain ⟨k, hk⟩ := ho2
    have hmod : ¬ l.length % 2 = 0 := by omega
    have hdiv : l.length / 2 = k := by omega
    have hcast : (l.length : ℚ) = 2 * (k : ℚ) + 1 := by
      rw [hk]; push_cast; ring
    have hh : ((l.length : ℚ) - 1) * 50 / 100 = (k : ℚ) := by
      rw [hcast]; ring
    rw [hh]
    rw [interpAt_of_floor _ _ k (Int.floor_natCast k)]
    rw [if_neg hmod, hdiv]
    ring

/-- Witness for C8 on the sample list `[1, 2]`. -/
theorem p50_eq_median_witness :
    ([(1 : ℚ), 2] ≠ []) ∧
    (calculate_percentiles [(1 : ℚ), 2]).p50 = (calculate_percentiles [(1 : ℚ), 2]).median :=
  ⟨by simp, p50_eq_median [1, 2] (by simp)⟩
